import Mathlib

/-!
Verification of the audio transcoding and session layer of a telephony-to-AI
voice bridge. Definitions are shallow embeddings of the Python source
(`agent_voice_bridge/audio.py` and `agent_voice_bridge/server.py`): numpy
integer arrays are modelled as `List Int` with explicit 16-bit wraparound
where the source's dtype arithmetic wraps, byte strings as `List Nat`, and
the floating-point linear interpolation of `np.interp` as exact rational
interpolation.
-/

namespace AgentVoiceBridge

/-! Section: μ-law codec, from audio.py -/

/-- Two's-complement wraparound of a 16-bit signed integer, as performed by
numpy `int16` arithmetic. -/
def int16wrap (z : Int) : Int := (z + 32768) % 65536 - 32768

/-- The ITU-T G.711 μ-law expansion table `ULAW_DECODE_TABLE` from audio.py,
256 entries, copied verbatim. -/
def ULAW_DECODE_TABLE : List Int := [
    -32124, -31100, -30076, -29052, -28028, -27004, -25980, -24956,
    -23932, -22908, -21884, -20860, -19836, -18812, -17788, -16764,
    -15996, -15484, -14972, -14460, -13948, -13436, -12924, -12412,
    -11900, -11388, -10876, -10364, -9852, -9340, -8828, -8316,
    -7932, -7676, -7420, -7164, -6908, -6652, -6396, -6140,
    -5884, -5628, -5372, -5116, -4860, -4604, -4348, -4092,
    -3900, -3772, -3644, -3516, -3388, -3260, -3132, -3004,
    -2876, -2748, -2620, -2492, -2364, -2236, -2108, -1980,
    -1884, -1820, -1756, -1692, -1628, -1564, -1500, -1436,
    -1372, -1308, -1244, -1180, -1116, -1052, -988, -924,
    -876, -844, -812, -780, -748, -716, -684, -652,
    -620, -588, -556, -524, -492, -460, -428, -396,
    -372, -356, -340, -324, -308, -292, -276, -260,
    -244, -228, -212, -196, -180, -164, -148, -132,
    -120, -112, -104, -96, -88, -80, -72, -64,
    -56, -48, -40, -32, -24, -16, -8, 0,
    32124, 31100, 30076, 29052, 28028, 27004, 25980, 24956,
    23932, 22908, 21884, 20860, 19836, 18812, 17788, 16764,
    15996, 15484, 14972, 14460, 13948, 13436, 12924, 12412,
    11900, 11388, 10876, 10364, 9852, 9340, 8828, 8316,
    7932, 7676, 7420, 7164, 6908, 6652, 6396, 6140,
    5884, 5628, 5372, 5116, 4860, 4604, 4348, 4092,
    3900, 3772, 3644, 3516, 3388, 3260, 3132, 3004,
    2876, 2748, 2620, 2492, 2364, 2236, 2108, 1980,
    1884, 1820, 1756, 1692, 1628, 1564, 1500, 1436,
    1372, 1308, 1244, 1180, 1116, 1052, 988, 924,
    876, 844, 812, 780, 748, 716, 684, 652,
    620, 588, 556, 524, 492, 460, 428, 396,
    372, 356, 340, 324, 308, 292, 276, 260,
    244, 228, 212, 196, 180, 164, 148, 132,
    120, 112, 104, 96, 88, 80, 72, 64,
    56, 48, 40, 32, 24, 16, 8, 0]

/-- Table lookup for one μ-law byte, as in `ulaw_to_pcm16` (numpy fancy
indexing `ULAW_DECODE_TABLE[ulaw_array]`). -/
def ulawDecodeSample (b : Nat) : Int := ULAW_DECODE_TABLE.getD b 0

/-- Embedding of `ulaw_to_pcm16`: μ-law bytes to PCM16 samples. -/
def ulaw_to_pcm16 (ulawBytes : List Nat) : List Int := ulawBytes.map ulawDecodeSample

/-- Floor of the base-2 logarithm, via fuel-bounded halving (enough fuel for
all 16-bit inputs). `log2floorAux (fuel) n` equals `Nat.log2 n` for `n < 2 ^ fuel`. -/
def log2floorAux : Nat → Nat → Nat
  | 0, _ => 0
  | fuel + 1, n => if n ≤ 1 then 0 else log2floorAux fuel (n / 2) + 1

/-- Floor of the base-2 logarithm for inputs up to `2 ^ 32`. -/
def log2floor (n : Nat) : Nat := log2floorAux 32 n

/-- Embedding of the per-sample body of `pcm16_to_ulaw` from audio.py, with the
numpy dtype arithmetic made explicit:
`np.abs` on int16 wraps (`abs (-32768) = -32768`), the bias addition
`pcm16 + 132` is int16 arithmetic and wraps for magnitudes at or above 32636,
`np.floor (np.log2 (v + 1))` is exact floor-log2 for this input range (the
float32 rounding never crosses an integer for arguments up to 32768), and
`np.clip (exponent - 7, 0, 7)` subtracts in uint8, wrapping when the raw
exponent is below 7. The final `~(sign | exponent << 4 | mantissa) & 0xFF`
is `255 - (sign + 16 * exponent + mantissa)` because the three bit fields are
disjoint and their sum is below 256. -/
def ulawAssemble (sign v : Nat) : Nat :=
  let eRaw : Nat := log2floor (v + 1)
  let e : Nat := min ((eRaw + 249) % 256) 7
  let m : Nat := (v / 2 ^ (e + 3)) % 16
  255 - (sign + 16 * e + m)

/-- Sign bit, biased clipped magnitude, and assembly for one sample, continuing
the dtype-exact embedding of `pcm16_to_ulaw`. -/
def ulawEncodeSample (x0 : Int) : Nat :=
  let x : Int := int16wrap x0
  let sign : Nat := if x < 0 then 128 else 0
  let a : Int := int16wrap (x.natAbs : Int)
  let b : Int := int16wrap (a + 132)
  let v : Nat := (max (min b 32767) 0).toNat
  ulawAssemble sign v

/-- Embedding of `pcm16_to_ulaw`: PCM16 samples to μ-law bytes. -/
def pcm16_to_ulaw (pcm : List Int) : List Nat := pcm.map ulawEncodeSample

/-- Modelled from the spec: the standard G.711 μ-law encode algorithm as the
specification describes it, in exact integer arithmetic with no dtype
wraparound: take sign and magnitude, add bias 132, clip to [0, 32767], take
the exponent as the position of the highest set bit above the bias region
clipped to [0, 7], the 4-bit mantissa from the biased magnitude shifted right
by exponent + 3, and assemble `~(sign | exponent << 4 | mantissa) & 0xFF`.
Used only to compare the source encoder against the claimed standard. -/
def g711Assemble (sign v : Nat) : Nat :=
  let e : Nat := min (log2floor v - 7) 7
  let m : Nat := (v / 2 ^ (e + 3)) % 16
  255 - (sign + 16 * e + m)

/-- Sign and biased clipped magnitude for the spec-side standard encoder. -/
def g711EncodeSpecSample (x : Int) : Nat :=
  let sign : Nat := if x < 0 then 128 else 0
  let v : Nat := min (x.natAbs + 132) 32767
  g711Assemble sign v

/-! Section: Characterization of the floor-log2 helper -/

lemma log2floorAux_spec : ∀ (fuel n : Nat), 1 ≤ n → n < 2 ^ fuel →
    2 ^ log2floorAux fuel n ≤ n ∧ n < 2 ^ (log2floorAux fuel n + 1) := by
  intro fuel
  induction fuel with
  | zero =>
    intro n h1 h2
    simp only [pow_zero] at h2
    omega
  | succ fuel ih =>
    intro n h1 h2
    by_cases hn : n ≤ 1
    · have hone : n = 1 := by omega
      subst hone
      simp [log2floorAux]
    · rw [pow_succ] at h2
      have hhalf := ih (n / 2) (by omega) (by omega)
      simp only [log2floorAux, if_neg hn]
      rw [pow_succ, pow_succ]
      omega

lemma log2floor_spec {n : Nat} (h1 : 1 ≤ n) (h2 : n < 4294967296) :
    2 ^ log2floor n ≤ n ∧ n < 2 ^ (log2floor n + 1) :=
  log2floorAux_spec 32 n h1 (by norm_num; omega)

lemma log2floor_unique {n k : Nat} (hn1 : 1 ≤ n) (hn2 : n < 4294967296)
    (h1 : 2 ^ k ≤ n) (h2 : n < 2 ^ (k + 1)) : log2floor n = k := by
  obtain ⟨hA, hB⟩ := log2floor_spec hn1 hn2
  rcases Nat.lt_trichotomy (log2floor n) k with h | h | h
  · have : 2 ^ (log2floor n + 1) ≤ 2 ^ k := Nat.pow_le_pow_right (by norm_num) (by omega)
    omega
  · exact h
  · have : 2 ^ (k + 1) ≤ 2 ^ log2floor n := Nat.pow_le_pow_right (by norm_num) (by omega)
    omega

/-- On the non-overflowing, non-boundary biased magnitudes, the source's
`log2 (v + 1)`-based exponent agrees with the standard highest-set-bit
exponent. -/
lemma exponent_agrees (v : Nat) (hv1 : 132 ≤ v) (hv2 : v ≤ 32767)
    (hb : v ∉ ([255, 511, 1023, 2047, 4095, 8191, 16383] : List Nat)) :
    min ((log2floor (v + 1) + 249) % 256) 7 = min (log2floor v - 7) 7 := by
  have hb' : v ≠ 255 ∧ v ≠ 511 ∧ v ≠ 1023 ∧ v ≠ 2047 ∧ v ≠ 4095 ∧ v ≠ 8191 ∧ v ≠ 16383 := by
    simpa using hb
  by_cases hv : v = 32767
  · subst hv
    decide
  · obtain ⟨hL1, hL2⟩ := log2floor_spec (n := v) (by omega) (by omega)
    set L := log2floor v with hLdef
    have hL7 : 7 ≤ L := by
      by_contra h
      have hmono : 2 ^ (L + 1) ≤ 2 ^ 7 := Nat.pow_le_pow_right (by norm_num) (by omega)
      have h7 : (2 : Nat) ^ 7 = 128 := by norm_num
      omega
    have hL14 : L ≤ 14 := by
      by_contra h
      have hmono : 2 ^ 15 ≤ 2 ^ L := Nat.pow_le_pow_right (by norm_num) (by omega)
      have h15 : (2 : Nat) ^ 15 = 32768 := by norm_num
      omega
    have hne : v ≠ 2 ^ (L + 1) - 1 := by
      intro hveq
      interval_cases L <;> norm_num at hveq <;> omega
    have hM : log2floor (v + 1) = L :=
      log2floor_unique (by omega) (by omega) (by omega) (by omega)
    rw [hM]
    have hmod : (L + 249) % 256 = L - 7 := by omega
    rw [hmod]

/-- Claim C5 (counterexample): at sample 123 the source encoder and the
standard G.711 algorithm described by the spec produce different bytes
(224 versus 240), so the encoder does not match the standard bit for bit
for every int16 sample. -/
theorem C5_counterexample : ulawEncodeSample 123 ≠ g711EncodeSpecSample 123 := by decide

/-- Claim C5 (amended): for every int16 sample whose magnitude is at most
32635 (so the int16 bias addition does not overflow) and whose biased
magnitude `|x| + 132` is not one of the all-ones boundary values
255, 511, 1023, 2047, 4095, 8191, 16383 (where the source's
`floor (log2 (v + 1))` lands in the next segment), the μ-law encoder produces
exactly the byte of the standard G.711 algorithm. -/
theorem C5_encode_matches_g711 (x : Int) (hmag : x.natAbs ≤ 32635)
    (hb : x.natAbs + 132 ∉ ([255, 511, 1023, 2047, 4095, 8191, 16383] : List Nat)) :
    ulawEncodeSample x = g711EncodeSpecSample x := by
  have hx1 : -32635 ≤ x := by omega
  have hx2 : x ≤ 32635 := by omega
  have hw : int16wrap x = x := by unfold int16wrap; omega
  have ha : int16wrap (Nat.cast x.natAbs) = (Nat.cast x.natAbs : Int) := by
    unfold int16wrap; omega
  have hbb : int16wrap ((Nat.cast x.natAbs : Int) + 132) = (Nat.cast x.natAbs : Int) + 132 := by
    unfold int16wrap; omega
  have hv : (max (min ((Nat.cast x.natAbs : Int) + 132) 32767) 0).toNat = x.natAbs + 132 := by
    omega
  have hvmin : min (x.natAbs + 132) 32767 = x.natAbs + 132 := by omega
  simp only [ulawEncodeSample, g711EncodeSpecSample, Int.ofNat_eq_natCast, hw, ha, hbb, hv,
    hvmin]
  simp only [ulawAssemble, g711Assemble]
  rw [exponent_agrees (x.natAbs + 132) (by omega) (by omega) hb]

/-- Claim C5 (witness): the amended agreement instantiated at sample 1000. -/
theorem C5_witness : ulawEncodeSample 1000 = g711EncodeSpecSample 1000 :=
  C5_encode_matches_g711 1000 (by decide) (by decide)

/-- Claim C6: round-tripping a PCM16 buffer through the μ-law encoder and
decoder sends silence to near-silence: when every sample of the buffer is
zero, every round-tripped sample has magnitude below 100 (here it is exactly
zero). -/
theorem C6_silence_roundtrip (xs : List Int) (h : ∀ s ∈ xs, s = 0) :
    ∀ y ∈ ulaw_to_pcm16 (pcm16_to_ulaw xs), y.natAbs < 100 := by
  intro y hy
  simp only [ulaw_to_pcm16, pcm16_to_ulaw, List.map_map, List.mem_map, Function.comp] at hy
  obtain ⟨s, hs, rfl⟩ := hy
  rw [h s hs]
  decide

/-- Claim C6 (witness): the silence round trip instantiated at the buffer
`[0, 0, 0]` and its first round-tripped sample. -/
theorem C6_witness : (0 : Int).natAbs < 100 :=
  C6_silence_roundtrip [0, 0, 0] (by decide) 0 (by decide)

/-! Section: Linear-interpolation resampler, from `resample` in audio.py

The numpy pipeline is `x_old = np.linspace (0, 1, len audio)`,
`x_new = np.linspace (0, 1, new_length)` with
`new_length = int (len audio * to_rate / from_rate)`, and
`np.interp (x_new, x_old, audio) .astype (audio.dtype)`. We model the float64
interpolation with exact rationals; the output-length truncation
`int (...)` agrees with natural-number floor division throughout the integer
range these rates produce, `np.interp` on an empty sample-point array raises
(modelled as `none`), and `astype` to the buffers' int16 dtype truncates
toward zero and wraps. -/

/-- Embedding of `np.linspace 0 1 n`: `n` evenly spaced rationals from 0 to 1
(for `n = 1` numpy yields `[0]`, matched here by rational division by zero). -/
def linspace01 (n : Nat) : List ℚ :=
  (List.range n).map (fun i : Nat => (i : ℚ) / ((n : ℚ) - 1))

/-- Embedding of `np.interp` over a list of (sample point, value) pairs with
increasing sample points: clamp to the first value on the left, interpolate
linearly between bracketing points, clamp to the last value on the right. -/
def interpPts : List (ℚ × ℚ) → ℚ → ℚ
  | [], _ => 0
  | [(_, f1)], _ => f1
  | (x1, f1) :: (x2, f2) :: rest, x =>
    if x ≤ x1 then f1
    else if x ≤ x2 then f1 + (f2 - f1) * (x - x1) / (x2 - x1)
    else interpPts ((x2, f2) :: rest) x

/-- Truncation toward zero of a rational, as `astype` does for a float64 value
converted to an integer dtype. -/
def ratTrunc (q : ℚ) : Int := if 0 ≤ q then ⌊q⌋ else -⌊-q⌋

/-- Embedding of `resample` from audio.py. -/
def resample (audio : List Int) (fromRate toRate : Nat) : Option (List Int) :=
  if fromRate = toRate then some audio
  else if audio = [] then none
  else
    let newLength := audio.length * toRate / fromRate
    let pts := (linspace01 audio.length).zip (audio.map (fun s : Int => (s : ℚ)))
    some ((linspace01 newLength).map (fun x => int16wrap (ratTrunc (interpPts pts x))))

/-- Claim C4 (counterexample): resampling a five-sample buffer from 24kHz to
8kHz yields one sample, while the claimed `round (len * to / from)` formula
gives two, so the output length is the truncation, not the rounding, of
`len * to / from`. -/
theorem C4_counterexample :
    resample [0, 0, 0, 0, 0] 24000 8000 = some [0] ∧
      round ((([0, 0, 0, 0, 0] : List Int).length : ℚ) * 8000 / 24000) = 2 := by
  constructor
  · norm_num [resample, linspace01, interpPts, ratTrunc, int16wrap, List.range_succ]
    intro h
    simp at h
  · rw [round_eq]
    norm_num

/-- Claim C4 (amended): `resample x r r = x` unchanged (pure passthrough; the
source resampler keeps no state at all), and for `r1 ≠ r2` on a nonempty
buffer the output has exactly `⌊len x * r2 / r1⌋` samples — the float
`int (...)` truncation, not `round (...)`. -/
theorem C4_resample_passthrough_length (audio : List Int) (fromRate toRate : Nat) :
    (fromRate = toRate → resample audio fromRate toRate = some audio) ∧
      (fromRate ≠ toRate → audio ≠ [] →
        ∃ ys, resample audio fromRate toRate = some ys ∧
          ys.length = audio.length * toRate / fromRate) := by
  constructor
  · intro h
    simp [resample, h]
  · intro hne hnil
    have hres : resample audio fromRate toRate =
        some ((linspace01 (audio.length * toRate / fromRate)).map
          (fun x => int16wrap (ratTrunc (interpPts
            ((linspace01 audio.length).zip (audio.map (fun s : Int => (s : ℚ)))) x)))) := by
      simp [resample, hne, hnil]
    exact ⟨_, hres, by simp [linspace01]⟩

/-- Claim C4 (witness): the amended statement instantiated at a one-sample
buffer resampled from 8kHz to 16kHz (passthrough at equal rates shown at
24kHz). -/
theorem C4_witness :
    resample [7] 24000 24000 = some [7] ∧
      ∃ ys, resample [7] 8000 16000 = some ys ∧ ys.length = ([7] : List Int).length * 16000 / 8000 :=
  ⟨(C4_resample_passthrough_length [7] 24000 24000).1 rfl,
    (C4_resample_passthrough_length [7] 8000 16000).2 (by decide) (by decide)⟩

/-! Section: Range preservation of the resampler -/

lemma int16wrap_fixed {z : Int} (h1 : -32768 ≤ z) (h2 : z ≤ 32767) : int16wrap z = z := by
  unfold int16wrap
  omega

/-- Linear interpolation stays within any interval containing all samples. -/
lemma interpPts_range (lo hi : ℚ) :
    ∀ (pts : List (ℚ × ℚ)) (x : ℚ), pts ≠ [] → (∀ p ∈ pts, lo ≤ p.2 ∧ p.2 ≤ hi) →
      lo ≤ interpPts pts x ∧ interpPts pts x ≤ hi := by
  intro pts
  induction pts with
  | nil => simp
  | cons p rest ih =>
    intro x _ hmem
    obtain ⟨x1, f1⟩ := p
    cases rest with
    | nil =>
      simpa [interpPts] using hmem (x1, f1) (by simp)
    | cons q rest2 =>
      obtain ⟨x2, f2⟩ := q
      have hf1 := hmem (x1, f1) (by simp)
      have hf2 := hmem (x2, f2) (by simp)
      simp only [interpPts]
      by_cases h1 : x ≤ x1
      · simpa [h1] using hf1
      · by_cases h2 : x ≤ x2
        · rw [if_neg h1, if_pos h2]
          have hx1 : x1 < x := not_le.mp h1
          have hd : (0 : ℚ) < x2 - x1 := by linarith
          have hrw : f1 + (f2 - f1) * (x - x1) / (x2 - x1) =
              f1 + (f2 - f1) * ((x - x1) / (x2 - x1)) := by
            rw [mul_div_assoc]
          rw [hrw]
          set t : ℚ := (x - x1) / (x2 - x1) with htdef
          have ht0 : 0 ≤ t := div_nonneg (by linarith) (by linarith)
          have ht1 : t ≤ 1 := (div_le_one hd).mpr (by linarith)
          have hA : 0 ≤ (1 - t) * (f1 - lo) := mul_nonneg (by linarith) (by linarith [hf1.1])
          have hB : 0 ≤ t * (f2 - lo) := mul_nonneg ht0 (by linarith [hf2.1])
          have hC : 0 ≤ (1 - t) * (hi - f1) := mul_nonneg (by linarith) (by linarith [hf1.2])
          have hD : 0 ≤ t * (hi - f2) := mul_nonneg ht0 (by linarith [hf2.2])
          constructor <;> nlinarith [hA, hB, hC, hD]
        · rw [if_neg h1, if_neg h2]
          exact ih x (by simp) (fun p hp => hmem p (List.mem_cons_of_mem _ hp))

/-- Truncation toward zero keeps a rational inside an integer interval around
zero. -/
lemma ratTrunc_range (lo hi : Int) {q : ℚ} (hlo : lo ≤ 0) (hhi : 0 ≤ hi)
    (h1 : (lo : ℚ) ≤ q) (h2 : q ≤ (hi : ℚ)) : lo ≤ ratTrunc q ∧ ratTrunc q ≤ hi := by
  unfold ratTrunc
  by_cases h : 0 ≤ q
  · rw [if_pos h]
    constructor
    · have : (0 : Int) ≤ ⌊q⌋ := Int.le_floor.mpr (by exact_mod_cast h)
      omega
    · have := Int.floor_le_floor (α := ℚ) h2
      simpa using this
  · rw [if_neg h]
    push_neg at h
    constructor
    · have hfl : ⌊-q⌋ ≤ -lo := by
        have := Int.floor_le_floor (α := ℚ) (show -q ≤ ((-lo : Int) : ℚ) by push_cast; linarith)
        simpa using this
      omega
    · have : (0 : Int) ≤ ⌊-q⌋ := Int.le_floor.mpr (by push_cast; linarith)
      omega

/-- Claim C9: every sample produced by `resample` lies in the signed 16-bit
domain `[-32768, 32767]` whenever the input samples do; in particular the
final int16 conversion never wraps. -/
theorem C9_resample_range (audio : List Int) (fromRate toRate : Nat) (ys : List Int)
    (hin : ∀ s ∈ audio, -32768 ≤ s ∧ s ≤ 32767)
    (hres : resample audio fromRate toRate = some ys) :
    ∀ y ∈ ys, -32768 ≤ y ∧ y ≤ 32767 := by
  intro y hy
  unfold resample at hres
  by_cases heq : fromRate = toRate
  · rw [if_pos heq] at hres
    obtain rfl : audio = ys := by simpa using hres
    exact hin y hy
  · rw [if_neg heq] at hres
    by_cases hnil : audio = []
    · rw [if_pos hnil] at hres
      simp at hres
    · rw [if_neg hnil] at hres
      simp only [Option.some.injEq] at hres
      subst hres
      simp only [List.mem_map] at hy
      obtain ⟨xq, _, rfl⟩ := hy
      set pts := (linspace01 audio.length).zip (audio.map (fun s : Int => (s : ℚ))) with hpts
      have hne : pts ≠ [] := by
        have hlen : pts.length = audio.length := by
          simp [hpts, linspace01]
        intro hcon
        rw [hcon] at hlen
        simp only [List.length_nil] at hlen
        exact hnil (List.eq_nil_of_length_eq_zero hlen.symm)
      have hmem : ∀ p ∈ pts, (-32768 : ℚ) ≤ p.2 ∧ p.2 ≤ 32767 := by
        intro p hp
        have hsnd : p.2 ∈ audio.map (fun s : Int => (s : ℚ)) := (List.of_mem_zip hp).2
        simp only [List.mem_map] at hsnd
        obtain ⟨s, hs, hcast⟩ := hsnd
        rw [← hcast]
        have hsb := hin s hs
        exact ⟨by exact_mod_cast hsb.1, by exact_mod_cast hsb.2⟩
      have hq := interpPts_range (-32768) 32767 pts xq hne hmem
      have htr := ratTrunc_range (-32768) 32767 (by norm_num) (by norm_num)
        (by exact_mod_cast hq.1) (by exact_mod_cast hq.2)
      rw [int16wrap_fixed htr.1 htr.2]
      exact htr

/-- Claim C9 (witness): the range theorem instantiated at a one-sample buffer
resampled from 8kHz to 16kHz. -/
theorem C9_witness : -32768 ≤ (100 : Int) ∧ (100 : Int) ≤ 32767 :=
  C9_resample_range [100] 8000 16000 [100, 100] (by decide)
    (by norm_num [resample, linspace01, interpPts, ratTrunc, int16wrap, List.range_succ])
    100 (by decide)

/-! Section: Duplex session, from `media_stream` and its helpers in server.py

The WebSocket handler is embedded as a deterministic step function over the
sequence of telephony JSON messages. External library calls are the
parameters: `dec` is the fallible payload-decoding pipeline
(`base64.b64decode`, which raises on malformed input) and `procIn` is
`process_incoming_audio` (μ-law decode plus stateful 8kHz→16kHz `ratecv`,
threading its conversion state of type `σ`). Observable actions on the two
peers are collected as an ordered effect trace. -/

/-- One observable action of the session. -/
inductive Effect where
  | sendGemini (frame : List Nat)
  | logError
  | cancelPump
  | awaitPump
  | closeAI
  deriving DecidableEq

/-- How the message loop ended: the iterator ran out (telephony disconnect),
a `stop` message broke the loop, or an exception reached the session-level
handler. -/
inductive LoopEnd where
  | ranOut
  | stopped
  | errored
  deriving DecidableEq

/-- Inbound telephony messages (the JSON envelope, decoded). -/
inductive TwEvent where
  | connected
  | start (sid : String)
  | media (payload : String)
  | stop
  | other
  deriving DecidableEq

/-- Mutable state of the message loop: the correlation id (`stream_info`),
the inbound frame accumulator (`audio_buffer`), and the upsample resampler
state (`upsample_state`). -/
structure LoopState (σ : Type) where
  sid : Option String
  buffer : List Nat
  upState : σ
  deriving DecidableEq

/-- The inbound frame threshold `BUFFER_SIZE = 9600` from server.py
(about 300ms of 16kHz 16-bit audio). -/
def BUFFER_SIZE : Nat := 9600

/-- The buffer step of the media branch: `audio_buffer.extend(pcm)` followed by
the `len(audio_buffer) >= BUFFER_SIZE` check, which sends the whole buffer and
clears it. Returns the new buffer and the emitted frames. -/
def bufferPush (buf chunk : List Nat) : List Nat × List (List Nat) :=
  let b := buf ++ chunk
  if BUFFER_SIZE ≤ b.length then ([], [b]) else (b, [])

/-- One iteration of the `async for message in websocket.iter_text()` loop.
Returns `Except.error` when the body raises (malformed payload), otherwise the
new state, the emitted effects, and whether the loop continues (`stop`
breaks). -/
def handle_message (dec : String → Except Unit (List Nat))
    (procIn : List Nat → σ → List Nat × σ) (s : LoopState σ) (ev : TwEvent) :
    Except Unit (LoopState σ × List Effect × Bool) :=
  match ev with
  | TwEvent.connected => Except.ok (s, [], true)
  | TwEvent.start sid => Except.ok ({ s with sid := some sid }, [], true)
  | TwEvent.media payload =>
    if payload = "" then Except.ok (s, [], true)
    else
      match dec payload with
      | Except.error e => Except.error e
      | Except.ok chunk =>
        let pr := procIn chunk s.upState
        let br := bufferPush s.buffer pr.1
        Except.ok ({ s with buffer := br.1, upState := pr.2 },
          br.2.map Effect.sendGemini, true)
  | TwEvent.stop => Except.ok (s, [], false)
  | TwEvent.other => Except.ok (s, [], true)

/-- The message loop itself, accumulating effects until stop, disconnect
(end of the message list) or an exception. -/
def run_loop (dec : String → Except Unit (List Nat))
    (procIn : List Nat → σ → List Nat × σ) :
    LoopState σ → List TwEvent → LoopState σ × List Effect × LoopEnd
  | s, [] => (s, [], LoopEnd.ranOut)
  | s, ev :: rest =>
    match handle_message dec procIn s ev with
    | Except.error _ => (s, [], LoopEnd.errored)
    | Except.ok (s1, effs, cont) =>
      if cont then
        let r := run_loop dec procIn s1 rest
        (r.1, effs ++ r.2.1, r.2.2)
      else (s1, effs, LoopEnd.stopped)

/-- The whole `media_stream` handler: run the loop, log an error for the
session-level `except Exception` handler, then perform the `finally` block
(`receive_task.cancel(); await receive_task`) and leave the AI session's
`async with` context, which closes the AI-peer connection. -/
def media_stream (dec : String → Except Unit (List Nat))
    (procIn : List Nat → σ → List Nat × σ) (s0 : LoopState σ) (msgs : List TwEvent) :
    LoopState σ × List Effect × LoopEnd :=
  let r := run_loop dec procIn s0 msgs
  (r.1, r.2.1 ++ (if r.2.2 = LoopEnd.errored then [Effect.logError] else []) ++
    [Effect.cancelPump, Effect.awaitPump, Effect.closeAI], r.2.2)

/-- Concrete payload decoder for witnesses: the payload "bad" raises, anything
else decodes to a three-byte chunk. -/
def decFix (p : String) : Except Unit (List Nat) :=
  if p = "bad" then Except.error () else Except.ok [1, 2, 3]

/-- Concrete incoming-audio processing for witnesses: passes the chunk through
and counts processed chunks in the resampler state. -/
def procCount (chunk : List Nat) (st : Nat) : List Nat × Nat := (chunk, st + 1)

/-- Fresh session state: no correlation id, empty buffer, initial resampler
state. -/
def initState : LoopState Nat := ⟨none, [], 0⟩

/-! Section: Session-level properties -/

lemma run_loop_nil (dec : String → Except Unit (List Nat))
    (procIn : List Nat → σ → List Nat × σ) (s : LoopState σ) :
    run_loop dec procIn s [] = (s, [], LoopEnd.ranOut) := rfl

lemma run_loop_cons_error {dec : String → Except Unit (List Nat)}
    {procIn : List Nat → σ → List Nat × σ} {s : LoopState σ} {ev : TwEvent} {er : Unit}
    (rest : List TwEvent) (hm : handle_message dec procIn s ev = Except.error er) :
    run_loop dec procIn s (ev :: rest) = (s, [], LoopEnd.errored) := by
  simp only [run_loop, hm]

lemma run_loop_cons_ok {dec : String → Except Unit (List Nat)}
    {procIn : List Nat → σ → List Nat × σ} {s t : LoopState σ} {ev : TwEvent}
    {e1 : List Effect} {cont : Bool} (rest : List TwEvent)
    (hm : handle_message dec procIn s ev = Except.ok (t, e1, cont)) :
    run_loop dec procIn s (ev :: rest) =
      if cont then
        ((run_loop dec procIn t rest).1, e1 ++ (run_loop dec procIn t rest).2.1,
          (run_loop dec procIn t rest).2.2)
      else (t, e1, LoopEnd.stopped) := by
  simp only [run_loop, hm]

lemma run_loop_append (dec : String → Except Unit (List Nat))
    (procIn : List Nat → σ → List Nat × σ) :
    ∀ (xs : List TwEvent) (s s1 : LoopState σ) (effs : List Effect),
      run_loop dec procIn s xs = (s1, effs, LoopEnd.ranOut) →
      ∀ ys, run_loop dec procIn s (xs ++ ys) =
        ((run_loop dec procIn s1 ys).1, effs ++ (run_loop dec procIn s1 ys).2.1,
          (run_loop dec procIn s1 ys).2.2) := by
  intro xs
  induction xs with
  | nil =>
    intro s s1 effs h ys
    rw [run_loop_nil] at h
    obtain ⟨rfl, rfl, -⟩ : s = s1 ∧ ([] : List Effect) = effs ∧
        LoopEnd.ranOut = LoopEnd.ranOut := by
      simpa [Prod.ext_iff] using h
    simp
  | cons ev rest ih =>
    intro s s1 effs h ys
    cases hm : handle_message dec procIn s ev with
    | error er =>
      rw [run_loop_cons_error rest hm] at h
      simp [Prod.ext_iff] at h
    | ok r =>
      obtain ⟨t, e1, cont⟩ := r
      rw [run_loop_cons_ok rest hm] at h
      rw [List.cons_append, run_loop_cons_ok (rest ++ ys) hm]
      cases cont with
      | false =>
        rw [if_neg (by simp)] at h
        simp [Prod.ext_iff] at h
      | true =>
        rw [if_pos rfl] at h
        rw [if_pos rfl]
        rw [Prod.ext_iff, Prod.ext_iff] at h
        obtain ⟨hf, hs, ht⟩ := h
        dsimp only at hf hs ht
        have hrest : run_loop dec procIn t rest =
            (s1, (run_loop dec procIn t rest).2.1, LoopEnd.ranOut) := by
          rw [Prod.ext_iff, Prod.ext_iff]
          exact ⟨hf, rfl, ht⟩
        rw [ih t s1 _ hrest ys]
        dsimp only
        rw [Prod.ext_iff, Prod.ext_iff]
        refine ⟨rfl, ?_, rfl⟩
        dsimp only
        rw [← hs, List.append_assoc]

lemma handle_message_effects {dec : String → Except Unit (List Nat)}
    {procIn : List Nat → σ → List Nat × σ} {s : LoopState σ} {ev : TwEvent}
    {r : LoopState σ × List Effect × Bool} (h : handle_message dec procIn s ev = Except.ok r) :
    ∀ e ∈ r.2.1, ∃ f, e = Effect.sendGemini f := by
  intro e he
  cases ev with
  | connected =>
    simp only [handle_message] at h
    injection h with h
    rw [← h] at he
    simp at he
  | start sid =>
    simp only [handle_message] at h
    injection h with h
    rw [← h] at he
    simp at he
  | media payload =>
    simp only [handle_message] at h
    by_cases hp : payload = ""
    · rw [if_pos hp] at h
      injection h with h
      rw [← h] at he
      simp at he
    · rw [if_neg hp] at h
      cases hd : dec payload with
      | error er => rw [hd] at h; simp at h
      | ok chunk =>
        rw [hd] at h
        injection h with h
        rw [← h] at he
        simp only [List.mem_map] at he
        obtain ⟨f, -, hfe⟩ := he
        exact ⟨f, hfe.symm⟩
  | stop =>
    simp only [handle_message] at h
    injection h with h
    rw [← h] at he
    simp at he
  | other =>
    simp only [handle_message] at h
    injection h with h
    rw [← h] at he
    simp at he

lemma run_loop_effects (dec : String → Except Unit (List Nat))
    (procIn : List Nat → σ → List Nat × σ) :
    ∀ (msgs : List TwEvent) (s : LoopState σ),
      ∀ e ∈ (run_loop dec procIn s msgs).2.1, ∃ f, e = Effect.sendGemini f := by
  intro msgs
  induction msgs with
  | nil => intro s e he; simp [run_loop_nil] at he
  | cons ev rest ih =>
    intro s e he
    cases hm : handle_message dec procIn s ev with
    | error er =>
      rw [run_loop_cons_error rest hm] at he
      simp at he
    | ok r =>
      obtain ⟨t, e1, cont⟩ := r
      rw [run_loop_cons_ok rest hm] at he
      cases cont with
      | false =>
        rw [if_neg (by simp)] at he
        exact handle_message_effects hm e he
      | true =>
        rw [if_pos rfl] at he
        dsimp only at he
        rw [List.mem_append] at he
        rcases he with he | he
        · exact handle_message_effects hm e he
        · exact ih t e he

/-- Claim C7: on every session run — stop message, telephony disconnect (end
of the message stream), or an exception reaching the session handler — the
effect trace ends with cancelling the AI-receive pump, awaiting it, and then
closing the AI-peer connection, in that order; no cancel, await, or close
occurs anywhere else (so the connection is closed exactly once, after the
pump has been awaited), and this holds in particular for a stop arriving
before any media message. -/
theorem C7_teardown_order (dec : String → Except Unit (List Nat))
    (procIn : List Nat → σ → List Nat × σ) (s0 : LoopState σ) (msgs : List TwEvent) :
    ∃ pre, (media_stream dec procIn s0 msgs).2.1 =
        pre ++ [Effect.cancelPump, Effect.awaitPump, Effect.closeAI] ∧
      ∀ e ∈ pre, (∃ f, e = Effect.sendGemini f) ∨ e = Effect.logError := by
  refine ⟨(run_loop dec procIn s0 msgs).2.1 ++
    (if (run_loop dec procIn s0 msgs).2.2 = LoopEnd.errored then [Effect.logError] else []),
    ?_, ?_⟩
  · simp [media_stream]
  · intro e he
    simp only [List.mem_append] at he
    rcases he with he | he
    · exact Or.inl (run_loop_effects dec procIn msgs s0 e he)
    · right
      by_cases herr : (run_loop dec procIn s0 msgs).2.2 = LoopEnd.errored
      · rw [if_pos herr] at he
        simpa using he
      · rw [if_neg herr] at he
        simp at he

/-- Claim C1 (counterexample): with a decoder that raises on payload "bad",
the session that receives `start`, then a malformed media message, then a
well-formed media message, terminates: the exception reaches the session-level
handler, a diagnostic is logged, the session tears down, and the subsequent
well-formed message is never processed (the resampler chunk counter stays 0).
This contradicts the claim that the single message is discarded while the
session stays active and continues. -/
theorem C1_counterexample :
    media_stream decFix procCount initState
        [TwEvent.start "S", TwEvent.media "bad", TwEvent.media "good"] =
      (⟨some "S", [], 0⟩,
        [Effect.logError, Effect.cancelPump, Effect.awaitPump, Effect.closeAI],
        LoopEnd.errored) := by
  decide

/-- Claim C1 (amended): an exception raised while decoding an inbound media
payload is caught by the session-level handler, not per message: a diagnostic
is logged, but the loop stops at the offending message — every later message
goes unprocessed — and the session proceeds directly to teardown (pump
cancelled and awaited, AI-peer connection closed). -/
theorem C1_decode_error_terminates (dec : String → Except Unit (List Nat))
    (procIn : List Nat → σ → List Nat × σ) (s0 s1 : LoopState σ) (effs1 : List Effect)
    (pre post : List TwEvent) (p : String)
    (h1 : run_loop dec procIn s0 pre = (s1, effs1, LoopEnd.ranOut))
    (h2 : p ≠ "") (h3 : dec p = Except.error ()) :
    media_stream dec procIn s0 (pre ++ TwEvent.media p :: post) =
      (s1, effs1 ++ [Effect.logError, Effect.cancelPump, Effect.awaitPump, Effect.closeAI],
        LoopEnd.errored) := by
  have hm : handle_message dec procIn s1 (TwEvent.media p) = Except.error () := by
    simp only [handle_message, if_neg h2, h3]
  have hrun : run_loop dec procIn s1 (TwEvent.media p :: post) = (s1, [], LoopEnd.errored) :=
    run_loop_cons_error post hm
  simp only [media_stream]
  rw [run_loop_append dec procIn pre s0 s1 effs1 h1 (TwEvent.media p :: post), hrun]
  simp

/-- Claim C1 (witness): the amended behaviour instantiated at a session whose
very first message has an undecodable payload. -/
theorem C1_witness :
    media_stream decFix procCount initState [TwEvent.media "bad"] =
      (initState,
        [Effect.logError, Effect.cancelPump, Effect.awaitPump, Effect.closeAI],
        LoopEnd.errored) := by
  have h := C1_decode_error_terminates decFix procCount initState initState [] [] []
    "bad" rfl (by decide) rfl
  simpa using h

/-- Claim C2 (counterexample): a media message arriving while the correlation
id is still unknown (before `start`) is decoded, processed and buffered
exactly as if the session were active: after one pre-start media message the
frame buffer holds the decoded chunk and the resampler state advanced, which
contradicts the claim that such audio is not decoded, not buffered, and not
forwarded. -/
theorem C2_counterexample :
    run_loop decFix procCount initState [TwEvent.media "good"] =
      (⟨none, [1, 2, 3], 1⟩, [], LoopEnd.ranOut) := by
  decide

/-- Claim C2 (amended): the handling of a media message is completely
independent of whether the stream correlation id has arrived: the buffer,
resampler state, emitted frames and loop continuation are identical for any
two values of the id field (in particular for the unknown id before `start`),
and the message never raises because the id is unknown; the id itself is
merely carried through. -/
theorem C2_media_independent_of_start (dec : String → Except Unit (List Nat))
    (procIn : List Nat → σ → List Nat × σ) (sid1 sid2 : Option String)
    (buf : List Nat) (u : σ) (p : String) :
    handle_message dec procIn ⟨sid1, buf, u⟩ (TwEvent.media p) =
      (handle_message dec procIn ⟨sid2, buf, u⟩ (TwEvent.media p)).map
        (fun r => ({ r.1 with sid := sid1 }, r.2)) := by
  simp only [handle_message]
  by_cases hp : p = ""
  · simp [hp, Except.map]
  · rw [if_neg hp, if_neg hp]
    cases hd : dec p with
    | error er => rfl
    | ok chunk => rfl

/-! Section: Inbound frame buffer (claim C3) -/

/-- Iterated buffer pushes: fold `bufferPush` over a sequence of decoded
chunks, collecting every emitted frame in order. -/
def bufferRun : List Nat → List (List Nat) → List Nat × List (List Nat)
  | buf, [] => (buf, [])
  | buf, c :: cs =>
    let br := bufferPush buf c
    let r := bufferRun br.1 cs
    (r.1, br.2 ++ r.2)

lemma bufferRun_below : ∀ (pushes : List (List Nat)) (buf : List Nat),
    buf.length + pushes.flatten.length < BUFFER_SIZE →
    bufferRun buf pushes = (buf ++ pushes.flatten, []) := by
  intro pushes
  induction pushes with
  | nil => intro buf h; simp [bufferRun]
  | cons c cs ih =>
    intro buf h
    simp only [List.flatten_cons, List.length_append] at h
    simp only [bufferRun, bufferPush]
    have hlen : ¬ BUFFER_SIZE ≤ (buf ++ c).length := by
      rw [List.length_append]; omega
    rw [if_neg hlen]
    dsimp only
    rw [ih (buf ++ c) (by rw [List.length_append]; omega)]
    simp

lemma bufferRun_split : ∀ (xs ys : List (List Nat)) (buf : List Nat),
    bufferRun buf (xs ++ ys) =
      ((bufferRun (bufferRun buf xs).1 ys).1,
        (bufferRun buf xs).2 ++ (bufferRun (bufferRun buf xs).1 ys).2) := by
  intro xs
  induction xs with
  | nil => intro ys buf; simp [bufferRun]
  | cons c cs ih =>
    intro ys buf
    simp only [List.cons_append, bufferRun, List.append_eq]
    rw [ih ys (bufferPush buf c).1]
    dsimp only
    simp [List.append_assoc]

/-- Claim C3 (counterexample): a single push of 9601 bytes crosses the 9600
threshold; the emitted frame is the whole 9601-byte buffer — the byte beyond
the threshold is included in the frame — and nothing remains buffered, which
contradicts the claim that bytes beyond the threshold stay behind for the
next send. -/
theorem C3_counterexample :
    bufferPush [] (List.replicate 9601 0) = ([], [List.replicate 9601 0]) ∧
      BUFFER_SIZE < (List.replicate 9601 (0 : Nat)).length := by
  constructor
  · unfold bufferPush
    rw [List.nil_append, if_pos (by rw [List.length_replicate]; norm_num [BUFFER_SIZE])]
  · rw [List.length_replicate]
    norm_num [BUFFER_SIZE]

/-- Claim C3 (amended): pushes whose cumulative total stays below the 9600-byte
threshold trigger no send and leave everything buffered; the push that crosses
the threshold triggers exactly one send whose frame is the entire accumulated
content — including any bytes beyond the threshold — and the buffer is cleared
to empty rather than retaining a remainder. -/
theorem C3_buffer_threshold (pushes : List (List Nat)) :
    (pushes.flatten.length < BUFFER_SIZE → bufferRun [] pushes = (pushes.flatten, [])) ∧
      (∀ lastPush : List Nat, pushes.flatten.length < BUFFER_SIZE →
        BUFFER_SIZE ≤ pushes.flatten.length + lastPush.length →
          bufferRun [] (pushes ++ [lastPush]) = ([], [pushes.flatten ++ lastPush])) := by
  constructor
  · intro h
    have hb := bufferRun_below pushes [] (by simpa using h)
    simpa using hb
  · intro lastPush h1 h2
    rw [bufferRun_split pushes [lastPush] []]
    rw [bufferRun_below pushes [] (by simpa using h1)]
    dsimp only
    simp only [bufferRun, bufferPush, List.nil_append]
    rw [if_pos (by rw [List.length_append]; omega)]
    simp

/-- Claim C3 (witness): a 9000-byte push (no send) followed by a 600-byte push
that crosses the threshold: one send of the whole 9600 bytes, empty buffer. -/
theorem C3_witness :
    bufferRun [] [List.replicate 9000 0, List.replicate 600 0] =
      ([], [List.replicate 9000 0 ++ List.replicate 600 0]) := by
  have h := (C3_buffer_threshold [List.replicate 9000 0]).2 (List.replicate 600 0)
    (by simp only [List.flatten_cons, List.flatten_nil, List.append_nil,
        List.length_replicate]; norm_num [BUFFER_SIZE])
    (by simp only [List.flatten_cons, List.flatten_nil, List.append_nil,
        List.length_replicate]; norm_num [BUFFER_SIZE])
  simpa only [List.flatten_cons, List.flatten_nil, List.append_nil] using h

/-! Section: AI-receive pump, from `gemini_receiver` and `send_to_twilio` in server.py

`process_outgoing_audio` (stateful 24kHz→8kHz `ratecv`, μ-law encode, base64)
is the parameter `f`, threading its conversion state of type `τ`; audio
chunks pulled from the AI peer are a list of values of type `α`. -/

/-- Embedding of `send_to_twilio`: if the stream correlation id is still
unknown the function returns early and nothing is sent; otherwise one media
message tagged with the id is sent. -/
def send_to_twilio (sid : Option String) (b64 : String) : List (String × String) :=
  match sid with
  | none => []
  | some s => [(s, b64)]

/-- Embedding of the chunk loop of `gemini_receiver`: for each audio chunk,
`process_outgoing_audio` is applied first — updating the downsample state —
and only then is the encoded payload offered to `send_to_twilio`. Returns the
final downsample state and the messages actually sent to the telephony
peer. -/
def gemini_receiver (f : α → τ → String × τ) (sid : Option String) :
    τ → List α → τ × List (String × String)
  | st, [] => (st, [])
  | st, c :: cs =>
    let pr := f c st
    let outs := send_to_twilio sid pr.1
    let r := gemini_receiver f sid pr.2 cs
    (r.1, outs ++ r.2)

/-- Claim C8: while the stream correlation id is unknown, no media message is
sent to the telephony peer for any sequence of AI audio chunks — each chunk is
dropped at the send, nothing is buffered for later (the pump retains only the
resampler state), and the pump runs to completion without failing. -/
theorem C8_drop_before_sid (f : α → τ → String × τ) (st : τ) (chunks : List α) :
    (gemini_receiver f none st chunks).2 = [] := by
  induction chunks generalizing st with
  | nil => rfl
  | cons c cs ih => simp [gemini_receiver, send_to_twilio, ih]

/-- Claim C10: the downsample state advances through every AI audio chunk
regardless of whether the correlation id is known: even when a chunk is
dropped because the id is unknown, `process_outgoing_audio` has already been
applied and its threaded resampler state kept; only the send itself is
suppressed. -/
theorem C10_state_advances (f : α → τ → String × τ) (sid : Option String) (st : τ)
    (chunks : List α) :
    (gemini_receiver f sid st chunks).1 = chunks.foldl (fun s c => (f c s).2) st := by
  induction chunks generalizing st with
  | nil => rfl
  | cons c cs ih => simp [gemini_receiver, List.foldl_cons, ih]

end AgentVoiceBridge
